import Mathlib

/-!
Verification development for the LLPE hypothetical constant folder and its
dead-store forward walker.  The definitions below are a shallow embedding of
the C++ sources:

* `lib/Analysis/Integrator/HypotheticalConstantFolder.cpp` — value lattice
  evaluators (`tryEvaluateMerge`, `tryEvaluateHeaderPHI`, `tryFoldOpenCmp`,
  `tryFoldNonConstCmp`, `tryFoldPointerCmp`, the cast branch of
  `tryEvaluateResult`, `isOnlyExitingIteration`, `markContextDead`);
* `lib/Analysis/Integrator/DSE.cpp` — the dead-store analysis
  (`noteBytesWrittenBy`, `DSEHandleWrite`, `tryKillWriterTo`).

Machine integers are modelled as `Nat`/`Int` with explicit two's-complement
conversion where the code reads an `APInt` through `getSExtValue`.
Components that live in headers outside the analysed sources (the
`PointerBase` lattice-join, the generic `ForwardIAWalker` traversal engine,
and the alias-analysis oracles) are modelled from the specification and
marked as such in their doc comments.
-/

/-- Integer comparison predicates of `CmpInst` (the `ICMP_*` range).
Floating-point predicates are never folded by the evaluators modelled here,
so only the integer range is represented. -/
inductive CmpPred where
  | eq | ne | ugt | uge | ult | ule | sgt | sge | slt | sle
deriving DecidableEq, Repr

/-- Two's-complement reinterpretation of an unsigned `w`-bit value, as done by
`APInt::getSExtValue`. -/
def toSigned (w : Nat) (v : Nat) : Int :=
  if v < 2 ^ (w - 1) then (v : Int) else (v : Int) - 2 ^ w

/-- Shallow embedding of the `llvm::Value`s reachable through a
`ShadowValue`: integer constants carry their bit width and unsigned value;
`inst` stands for a non-constant (an instruction, for which `getVal()` is
null), with flags recording whether its type is a pointer type and whether
it is an identified object (an `alloca` or no-alias call). -/
inductive ShadowVal where
  | constInt (w : Nat) (v : Nat)
  | constNullPtr
  | globalObj (id : Nat)
  | func (id : Nat)
  | inst (id : Nat) (ptrTy : Bool) (identified : Bool)
deriving DecidableEq, Repr

/-- Constant `i1 0`, i.e. `ConstantInt::getFalse`. -/
def cFalse : ShadowVal := .constInt 1 0

/-- Constant `i1 1`, i.e. `ConstantInt::getTrue`. -/
def cTrue : ShadowVal := .constInt 1 1

/-- The `getVal()` accessor of a `ShadowValue`: yields the wrapped
`llvm::Value` when the shadow value holds a constant, and null (`none`) when
it refers to an instruction. -/
def ShadowVal.getVal : ShadowVal → Option ShadowVal
  | .inst _ _ _ => none
  | v => some v

/-- True when the shadow value wraps an instruction (`getInst()` non-null). -/
def ShadowVal.isInstVal : ShadowVal → Bool
  | .inst _ _ _ => true
  | _ => false

/-- The `Constant::isNullValue` test on the wrapped value. -/
def ShadowVal.isNullValue : ShadowVal → Bool
  | .constInt _ v => v = 0
  | .constNullPtr => true
  | _ => false

/-- The result of `dyn_cast_or_null<ConstantInt>` on the wrapped value:
the (bit width, unsigned value) pair of an integer constant. -/
def ShadowVal.asConstInt : ShadowVal → Option (Nat × Nat)
  | .constInt w v => some (w, v)
  | _ => none

/-- Whether the value's static type is a pointer type. -/
def ShadowVal.isPtrTy : ShadowVal → Bool
  | .constNullPtr => true
  | .globalObj _ => true
  | .func _ => true
  | .inst _ p _ => p
  | .constInt _ _ => false

/-- The `isGlobalIdentifiedObject` oracle used by the pointer-comparison
folder: true for identified global objects and for identified local objects
(allocas / no-alias calls, which are pointer-typed instructions). -/
def isGlobalIdentifiedObject : ShadowVal → Bool
  | .globalObj _ => true
  | .inst _ p idf => p && idf
  | _ => false

/-- Evaluation of an integer comparison on two `w`-bit constants, as
performed by `ConstantFoldCompareInstOperands` on `ConstantInt` operands. -/
def evalICmp (p : CmpPred) (w : Nat) (a b : Nat) : Bool :=
  match p with
  | .eq => a = b
  | .ne => a ≠ b
  | .ugt => b < a
  | .uge => b ≤ a
  | .ult => a < b
  | .ule => a ≤ b
  | .sgt => toSigned w b < toSigned w a
  | .sge => toSigned w b ≤ toSigned w a
  | .slt => toSigned w a < toSigned w b
  | .sle => toSigned w a ≤ toSigned w b

/-- Truncation of an `int64_t` to its unsigned 64-bit representation, used
when an offset is rebuilt as a `ConstantInt` over `i64`. -/
def toU64 (i : Int) : Nat := (i % (2 ^ 64 : Int)).toNat

/-- The value-set categories (`ValSetType`) of the lattice. -/
inductive ValSetType where
  | Unknown | Scalar | PB | FD | VarArg | Overdef
deriving DecidableEq, Repr

/-- The `LLONG_MAX` sentinel used for an indeterminate pointer offset. -/
def LLONG_MAX : Int := 2 ^ 63 - 1

/-- An `ImprovedVal`: a shadow value plus a byte offset (with `LLONG_MAX`
as the "indeterminate offset" sentinel). -/
structure ImprovedVal where
  V : ShadowVal
  Offset : Int
deriving DecidableEq, Repr

/-- Modelled from the spec: bound on a Pointer-Base candidate set; merging
beyond this many candidates collapses to Overdef.  (`PointerBase` lives in
`HypotheticalConstantFolder.h`, which is not among the analysed sources.) -/
def pbMaxValues : Nat := 16

/-- Modelled from the spec: the `PointerBase` lattice cell — a category tag,
a candidate value set, and an Overdef flag.  A default-constructed cell is
uninitialised (`Unknown`, empty, not Overdef). -/
structure PointerBase where
  ty : ValSetType := .Unknown
  Values : List ImprovedVal := []
  Overdef : Bool := false
deriving DecidableEq, Repr

/-- The canonical Overdef cell (`PointerBase::getOverdef`). -/
def PointerBase.getOverdef : PointerBase := ⟨.Unknown, [], true⟩

/-- Modelled from the spec: the monotone join `PointerBase::merge` — Unknown
merges to anything, differing concrete categories merge to Overdef,
same-category cells union their candidate sets (bounded by
`pbMaxValues`), and Overdef is absorbing. -/
def PointerBase.merge (a b : PointerBase) : PointerBase :=
  if a.Overdef || b.Overdef then .getOverdef
  else if a.ty = .Unknown then b
  else if b.ty = .Unknown then a
  else if a.ty ≠ b.ty then .getOverdef
  else if pbMaxValues < (a.Values ++ b.Values.filter (fun v => !decide (v ∈ a.Values))).length then
    .getOverdef
  else ⟨a.ty, a.Values ++ b.Values.filter (fun v => !decide (v ∈ a.Values)), false⟩

/-- The operand-merging loop of `IntegrationAttempt::tryEvaluateMerge`
(HypotheticalConstantFolder.cpp:190-215).  Each element of the list is the
result of `getPointerBase` on one live incoming operand: `none` when the
operand is still Unknown (no information yet), `some` otherwise.  The loop
runs while operands remain and the accumulator is not Overdef; an Unknown
operand is skipped in the optimistic phase (`finalise = false`) and forces
the canonical Overdef result in the finalising phase (`finalise = true`).
Returns the accumulated cell together with the `anyInfo` flag. -/
def tryEvaluateMergeLoop (finalise : Bool) :
    List (Option PointerBase) → PointerBase → Bool → PointerBase × Bool
  | [], acc, anyInfo => (acc, anyInfo)
  | v :: rest, acc, anyInfo =>
    if acc.Overdef then (acc, anyInfo)
    else
      match v with
      | none =>
        if finalise then (PointerBase.getOverdef, true)
        else tryEvaluateMergeLoop finalise rest acc anyInfo
      | some vpb => tryEvaluateMergeLoop finalise rest (acc.merge vpb) true

/-- `IntegrationAttempt::tryEvaluateMerge` applied to the collected live
operand values, starting from a default-constructed (uninitialised)
accumulator. -/
def tryEvaluateMerge (finalise : Bool) (vals : List (Option PointerBase)) :
    PointerBase × Bool :=
  tryEvaluateMergeLoop finalise vals {} false

/-- A PHI incoming value operand as recorded in
`ShadowInstructionInvar::operandIdxs`: either a non-instruction operand
(constant or argument, whose `blockIdx` is `INVALID_BLOCK_IDX`) or a
reference to an instruction of the loop body by (block, instruction)
indices. -/
inductive PhiOperand where
  | constOp (c : ShadowVal)
  | instOp (blockIdx instIdx : Nat)
deriving DecidableEq, Repr

/-- Fallback operand for an out-of-range predecessor index (the source
asserts that the preheader/latch indices are present). -/
def defaultPhiOperand : PhiOperand := .constOp (.constInt 32 0)

/-- A value as resolved within a particular peel-iteration context: either a
context-independent constant or an instruction of a given iteration. -/
inductive CtxValue where
  | constV (c : ShadowVal)
  | instIn (iter blockIdx instIdx : Nat)
deriving DecidableEq, Repr

/-- The `ShadowValue` produced by `getOperand` on a PHI within iteration
`k`: an instruction operand refers to that instruction in iteration `k`'s
context, a constant operand is context-independent. -/
def PhiOperand.valueInIter (k : Nat) : PhiOperand → CtxValue
  | .constOp c => .constV c
  | .instOp b i => .instIn k b i

/-- The data of a loop-header PHI node as used by
`PeelIteration::getLoopHeaderForwardedOperand`: its incoming value operands
(indexed by predecessor), the predecessor indices of the loop preheader and
latch blocks (`PN->getBasicBlockIndex`), and whether the PHI sits in the
loop header. -/
structure HeaderPhi where
  operands : List PhiOperand
  preheaderIdx : Nat
  latchIdx : Nat
  isHeaderPHI : Bool
deriving DecidableEq, Repr

/-- `PeelIteration::getLoopHeaderForwardedOperand`
(HypotheticalConstantFolder.cpp:224-253): at iteration 0 the PHI value is
pulled from the preheader operand; at a later iteration `k` it is the latch
operand, resolved as the corresponding instruction of iteration `k - 1`
when the operand is an instruction (`blockIdx` valid), and as the plain
operand otherwise. -/
def getLoopHeaderForwardedOperand (phi : HeaderPhi) (k : Nat) : CtxValue :=
  if k = 0 then
    (phi.operands.getD phi.preheaderIdx defaultPhiOperand).valueInIter 0
  else
    match phi.operands.getD phi.latchIdx defaultPhiOperand with
    | .instOp b i => .instIn (k - 1) b i
    | .constOp c => .constV c

/-- `PeelIteration::tryEvaluateHeaderPHI`
(HypotheticalConstantFolder.cpp:262-277): for a header PHI the result is
`getPointerBase` of the single forwarded operand (`env` models the
context-sensitive `getPointerBase` lookup); for a non-header PHI the
function declines (`none`). -/
def tryEvaluateHeaderPHI (env : CtxValue → Option PointerBase)
    (phi : HeaderPhi) (k : Nat) : Option (Option PointerBase) :=
  if phi.isHeaderPHI then some (env (getLoopHeaderForwardedOperand phi k))
  else none

/-- Concrete header PHI used to exercise `tryEvaluateHeaderPHI`. -/
def headerPhiEx : HeaderPhi :=
  { operands := [.instOp 0 3, .constOp (.constInt 32 7)]
    preheaderIdx := 1
    latchIdx := 0
    isHeaderPHI := true }

/-- Concrete context-sensitive value environment used to exercise
`tryEvaluateHeaderPHI`. -/
def phiEnvEx : CtxValue → Option PointerBase
  | .constV c => some ⟨.Scalar, [⟨c, 0⟩], false⟩
  | .instIn i b j => some ⟨.Scalar, [⟨.constInt 32 (100 * i + 10 * b + j), 0⟩], false⟩

/-- The iteration-status enumeration of a `PeelIteration`; the code only
distinguishes `IterationStatusFinal` from the rest. -/
inductive IterationStatus where
  | IterationStatusUnknown
  | IterationStatusFinal
deriving DecidableEq, Repr

/-- The per-iteration data consulted by `isOnlyExitingIteration`: the
iteration status and the result of `allExitEdgesDead()`. -/
structure PeelIterationInfo where
  iterStatus : IterationStatus
  allExitEdgesDead : Bool
deriving DecidableEq, Repr

/-- The per-attempt data: the materialised iterations in order, and
`invarInfo->optimisticEdge.first` (`0xffffffff` meaning no optimistic
edge). -/
structure PeelAttemptInfo where
  iterations : List PeelIterationInfo
  optimisticEdgeFirst : Nat
deriving DecidableEq, Repr

/-- The `0xffffffff` sentinel marking the absence of an optimistic edge. -/
def noOptimisticEdge : Nat := 0xffffffff

/-- `PeelAttempt::allNonFinalIterationsDoNotExit`
(HypotheticalConstantFolder.cpp:71-82): all iterations except the last have
every exit edge dead.  (The C++ loop bound `Iterations.size() - 1` is
unsigned; a peel attempt always holds at least one iteration, and truncated
`Nat` subtraction agrees with the loop for every nonempty list.) -/
def allNonFinalIterationsDoNotExit (pa : PeelAttemptInfo) : Bool :=
  (pa.iterations.take (pa.iterations.length - 1)).all (·.allExitEdgesDead)

/-- `PeelIteration::isOnlyExitingIteration`
(HypotheticalConstantFolder.cpp:84-94). -/
def isOnlyExitingIteration (it : PeelIterationInfo) (pa : PeelAttemptInfo) : Bool :=
  if it.iterStatus ≠ .IterationStatusFinal then false
  else if pa.optimisticEdgeFirst = noOptimisticEdge then true
  else allNonFinalIterationsDoNotExit pa

/-- The types relevant to the cast evaluator: integer types with a bit
width, pointer types, and anything else. -/
inductive LType where
  | intTy (w : Nat)
  | ptrTy
  | otherTy
deriving DecidableEq, Repr

/-- The type test applied to both sides of a cast of an FD value:
`isIntegerTy(32) || isIntegerTy(64) || isPointerTy()`. -/
def fdCastTypeOK (t : LType) : Bool :=
  t == .intTy 32 || t == .intTy 64 || t == .ptrTy

/-- Outcome of the `CastInst` branch of `tryEvaluateResult`: terminal
Overdef, the operand value passed through with its category, or
fall-through to the generic constant folder. -/
inductive CastEvalResult where
  | overdef
  | passThrough (ty : ValSetType) (v : ImprovedVal)
  | constFoldFallthrough
deriving DecidableEq, Repr

/-- The `CastInst` branch of `IntegrationAttempt::tryEvaluateResult`
(HypotheticalConstantFolder.cpp:913-942): an FD operand becomes Overdef
unless both the source and destination types are i32, i64 or pointer;
after that check every non-Scalar operand (FD, Pointer-Base, VarArg-Slot,
or still-Unknown) is passed through unchanged; Scalar operands fall
through to the generic constant folder. -/
def tryEvaluateCast (src dest : LType) (op : ValSetType × ImprovedVal) : CastEvalResult :=
  if op.1 == .FD && !(fdCastTypeOK src && fdCastTypeOK dest) then .overdef
  else if op.1 != .Scalar then .passThrough op.1 op.2
  else .constFoldFallthrough

/-- `getReversePred` (HypotheticalConstantFolder.cpp:491-517), which swaps
the operand order of an integer inequality; `eq`/`ne` are unreachable
(asserted out) and mapped to themselves. -/
def getReversePred : CmpPred → CmpPred
  | .ugt => .ult
  | .ult => .ugt
  | .uge => .ule
  | .ule => .uge
  | .sgt => .slt
  | .slt => .sgt
  | .sge => .sle
  | .sle => .sge
  | p => p

/-- `getSignedPred` (HypotheticalConstantFolder.cpp:474-489), mapping each
unsigned inequality to its signed counterpart. -/
def getSignedPred : CmpPred → CmpPred
  | .ugt => .sgt
  | .uge => .sge
  | .ult => .slt
  | .ule => .sle
  | p => p

/-- `APInt::isAllOnesValue` on a (width, value) integer constant. -/
def intIsAllOnes (wv : Nat × Nat) : Bool := wv.2 == 2 ^ wv.1 - 1

/-- `APInt::isMaxValue(true)`: the largest signed `w`-bit value. -/
def intIsMaxSigned (wv : Nat × Nat) : Bool := wv.2 == 2 ^ (wv.1 - 1) - 1

/-- `APInt::isMinValue(true)`: the smallest signed `w`-bit value (bit
pattern `2 ^ (w - 1)`). -/
def intIsMinSigned (wv : Nat × Nat) : Bool := wv.2 == 2 ^ (wv.1 - 1)

/-- `IntegrationAttempt::tryFoldNonConstCmp`
(HypotheticalConstantFolder.cpp:519-623): an integer inequality with
exactly one constant operand; the constant is moved to the right-hand side
(reversing the predicate when it was on the left) and the comparison folds
to a tautological boolean when the constant is the extremal value matching
the predicate.  `some b` models the Scalar fold to `ConstantInt b`; `none`
models "no fold" (the function returns false with `ImpType` left
Unknown). -/
def tryFoldNonConstCmp (pred : CmpPred) (v0 v1 : ShadowVal) : Option Bool :=
  if pred == .eq || pred == .ne then none
  else
    let op0C := v0.getVal
    let op1C := v1.getVal
    if op0C.isSome == op1C.isSome then none
    else
      let swapped := op1C.isNone
      let p := if swapped then getReversePred pred else pred
      let rhs := if swapped then v0 else v1
      match p with
      | .ugt =>
        match rhs.asConstInt with
        | some wv => if intIsAllOnes wv then some false else none
        | none => none
      | .uge => if rhs.isNullValue then some true else none
      | .ult => if rhs.isNullValue then some false else none
      | .ule =>
        match rhs.asConstInt with
        | some wv => if intIsAllOnes wv then some true else none
        | none => none
      | .sgt =>
        match rhs.asConstInt with
        | some wv => if intIsMaxSigned wv then some false else none
        | none => none
      | .sge =>
        match rhs.asConstInt with
        | some wv => if intIsMinSigned wv then some true else none
        | none => none
      | .slt =>
        match rhs.asConstInt with
        | some wv => if intIsMinSigned wv then some false else none
        | none => none
      | .sle =>
        match rhs.asConstInt with
        | some wv => if intIsMaxSigned wv then some true else none
        | none => none
      | _ => none

/-- The predicate actually applied by `getOpenCmpResult` after the
operand-order flip: `flip` swaps the signed inequalities. -/
def flipSignedPred : CmpPred → CmpPred
  | .sgt => .slt
  | .sge => .sle
  | .slt => .sgt
  | .sle => .sge
  | p => p

/-- The effective predicate with the FD handle normalised to the left-hand
side. -/
def effectiveOpenPred (pred : CmpPred) (flip : Bool) : CmpPred :=
  if flip then flipSignedPred pred else pred

/-- `getOpenCmpResult` (HypotheticalConstantFolder.cpp:353-418): folding a
comparison of a symbolic file descriptor (known to be a nonnegative signed
64-bit value) against the integer constant `cmpInt` (width, unsigned
value).  `none` models the invalid `ShadowValue()` result: a constant wider
than 64 bits, an unsupported predicate, or an inconclusive comparison. -/
def getOpenCmpResult (pred : CmpPred) (cmpInt : Nat × Nat) (flip : Bool) : Option Bool :=
  if 64 < cmpInt.1 then none
  else
    match effectiveOpenPred pred flip with
    | .eq => if toSigned cmpInt.1 cmpInt.2 < 0 then some false else none
    | .ne => if toSigned cmpInt.1 cmpInt.2 < 0 then some true else none
    | .sgt => if toSigned cmpInt.1 cmpInt.2 < 0 then some true else none
    | .sge => if toSigned cmpInt.1 cmpInt.2 ≤ 0 then some true else none
    | .slt => if toSigned cmpInt.1 cmpInt.2 ≤ 0 then some false else none
    | .sle => if toSigned cmpInt.1 cmpInt.2 < 0 then some false else none
    | _ => none

/-- Outcome of `tryFoldOpenCmp`: not handled (fall through to the other
folders), a Scalar boolean fold, terminal Overdef, or Unknown (retry). -/
inductive OpenCmpFold where
  | notHandled
  | scalarResult (b : Bool)
  | overdefResult
  | unknownResult
deriving DecidableEq, Repr

/-- `IntegrationAttempt::tryFoldOpenCmp`
(HypotheticalConstantFolder.cpp:422-472): a comparison involving a
file-descriptor value.  When the FD side is an instruction and the other
side casts to a `ConstantInt`, the result is `getOpenCmpResult` (Scalar on
success, Overdef when inconclusive/invalid); when the other side is not a
`ConstantInt` the result is Unknown or Overdef depending on that operand's
category; in all handled cases the function does not fall through to
generic constant folding. -/
def tryFoldOpenCmp (pred : CmpPred) (o0 o1 : ValSetType × ImprovedVal) : OpenCmpFold :=
  if o0.1 != .FD && o1.1 != .FD then .notHandled
  else if o0.2.V.isInstVal && o0.1 == .FD then
    match o1.2.V.asConstInt with
    | some wv =>
      match getOpenCmpResult pred wv false with
      | some b => .scalarResult b
      | none => .overdefResult
    | none => if o1.1 == .Unknown then .unknownResult else .overdefResult
  else if o1.2.V.isInstVal && o1.1 == .FD then
    match o0.2.V.asConstInt with
    | some wv =>
      match getOpenCmpResult pred wv true with
      | some b => .scalarResult b
      | none => .overdefResult
    | none => if o0.1 == .Unknown then .unknownResult else .overdefResult
  else .notHandled

/-- The unsigned predicates, which `getOpenCmpResult` does not support
(they fall into its default case). -/
def unsupportedOpenPred (p : CmpPred) : Bool :=
  match p with
  | .ugt | .uge | .ult | .ule => true
  | _ => false

/-- The boolean `ConstantInt` of a fold result. -/
def boolConst (b : Bool) : ShadowVal := if b then cTrue else cFalse

/-- `IntegrationAttempt::tryFoldPointerCmp`
(HypotheticalConstantFolder.cpp:626-720).  Case 1 folds null-vs-null and
null-vs-identified-object through a 0/1 encoding; case 2 folds two
pointers into the same object by a signed comparison of their (resolved)
offsets; case 3 folds equality/inequality of pointers into distinct,
both-identified objects regardless of offsets.  `none` models "return
false" (not handled; try generic constant folding). -/
def tryFoldPointerCmp (pred : CmpPred) (o0 o1 : ValSetType × ImprovedVal) :
    Option (ValSetType × ImprovedVal) :=
  if !((o0.1 == .Scalar || o0.1 == .PB) && (o1.1 == .Scalar || o1.1 == .PB)) then none
  else
    let op0 := o0.2.V
    let op1 := o1.2.V
    let op0C := op0.getVal
    let op1C := op1.getVal
    let op0Fun := match op0C with | some (.func _) => true | _ => false
    let op1Fun := match op1C with | some (.func _) => true | _ => false
    let op0Arg : Option Nat :=
      if op0C.isSome && op0.isNullValue then some 0
      else if op0.isPtrTy && (isGlobalIdentifiedObject op0 || op0Fun) then some 1
      else none
    let op1Arg : Option Nat :=
      if op1C.isSome && op1.isNullValue then some 0
      else if op1.isPtrTy && (isGlobalIdentifiedObject op1 || op1Fun) then some 1
      else none
    if op0Arg.isSome && op1Arg.isSome && (op0Arg == some 0 || op1Arg == some 0) then
      some (.Scalar, ⟨boolConst (evalICmp pred 64 (op0Arg.getD 0) (op1Arg.getD 0)), 0⟩)
    else if !(o0.1 == .PB && o1.1 == .PB) then none
    else if op0 == op1 then
      if o0.2.Offset == LLONG_MAX || o1.2.Offset == LLONG_MAX then none
      else
        some (.Scalar,
          ⟨boolConst (evalICmp (getSignedPred pred) 64 (toU64 o0.2.Offset) (toU64 o1.2.Offset)), 0⟩)
    else if isGlobalIdentifiedObject op0 && isGlobalIdentifiedObject op1 && op0 != op1 then
      match pred with
      | .eq => some (.Scalar, ⟨cFalse, 0⟩)
      | .ne => some (.Scalar, ⟨cTrue, 0⟩)
      | _ => none
    else none

mutual
/-- A hypothetical execution context (`IntegrationAttempt`): its dead flag,
an identifying payload, its child inline attempts (`inlineChildren`), and
its child peel attempts (`peelChildren`), each of which owns a list of
iterations. -/
inductive ICtx where
  | mk (contextIsDead : Bool) (ctxId : Nat) (inlineChildren : ICtxList)
      (peelChildren : PeelAttemptList)
/-- A list of child contexts. -/
inductive ICtxList where
  | nil
  | cons (head : ICtx) (tail : ICtxList)
/-- A list of child peel attempts, each represented by its iterations. -/
inductive PeelAttemptList where
  | nil
  | cons (iterations : ICtxList) (tail : PeelAttemptList)
end

mutual
/-- `IntegrationAttempt::markContextDead`
(HypotheticalConstantFolder.cpp:108-126): sets the context's dead flag and
recurses into every child inline attempt and every iteration of every
child peel attempt. -/
def markContextDead : ICtx → ICtx
  | .mk _ i ics pcs => .mk true i (markContextDeadList ics) (markContextDeadPeels pcs)
/-- Recursion of `markContextDead` over a child-context list. -/
def markContextDeadList : ICtxList → ICtxList
  | .nil => .nil
  | .cons c cs => .cons (markContextDead c) (markContextDeadList cs)
/-- Recursion of `markContextDead` over the peel attempts. -/
def markContextDeadPeels : PeelAttemptList → PeelAttemptList
  | .nil => .nil
  | .cons its ps => .cons (markContextDeadList its) (markContextDeadPeels ps)
end

mutual
/-- Whether every context of the subtree has its dead flag set. -/
def ctxAllDead : ICtx → Bool
  | .mk d _ ics pcs => d && ctxListAllDead ics && peelsAllDead pcs
/-- `ctxAllDead` over a child-context list. -/
def ctxListAllDead : ICtxList → Bool
  | .nil => true
  | .cons c cs => ctxAllDead c && ctxListAllDead cs
/-- `ctxAllDead` over the peel attempts. -/
def peelsAllDead : PeelAttemptList → Bool
  | .nil => true
  | .cons its ps => ctxListAllDead its && peelsAllDead ps
end

mutual
/-- The subtree with every dead flag cleared: the residue of a context
tree once the dead flags are ignored (ids and shape). -/
def ctxClearDead : ICtx → ICtx
  | .mk _ i ics pcs => .mk false i (ctxListClearDead ics) (peelsClearDead pcs)
/-- `ctxClearDead` over a child-context list. -/
def ctxListClearDead : ICtxList → ICtxList
  | .nil => .nil
  | .cons c cs => .cons (ctxClearDead c) (ctxListClearDead cs)
/-- `ctxClearDead` over the peel attempts. -/
def peelsClearDead : PeelAttemptList → PeelAttemptList
  | .nil => .nil
  | .cons its ps => .cons (ctxListClearDead its) (peelsClearDead ps)
end

/-- Alias-analysis verdicts (`AliasAnalysis::AliasResult`). -/
inductive AliasResult where
  | noAlias | mayAlias | mustAlias
deriving DecidableEq, Repr

/-- The per-instruction verdict of the forward walker (DSE.cpp):
continue along this path, stop this path successfully, or abort the whole
walk. -/
inductive WalkInstructionResult where
  | wContinue | stopThisPath | stopWholeWalk
deriving DecidableEq, Repr

/-- An instruction as seen by `IntegrationAttempt::noteBytesWrittenBy`,
with the answers of the external oracles recorded as fields, since the
tracked store is fixed for the whole walk: `lifetimeEnd` is an instruction
for which `isLifetimeEnd(StoreBase, I)` holds; for a memory intrinsic,
`isMTI` tells whether it is a `MemTransferInst`, `mtiNotKnownDead` whether
it is absent from `unusedWriters`, `srcMayAliasTracked` whether
`aliasHypothetical` of its source pointer against the tracked store is not
`NoAlias`, `knownSize` its length if constant, and `destAlias`/`destRange`
the alias verdict and `GetDefinedRange` output for its destination; for a
load, `unresolved` records that its value is not resolved or not available
from the store's context (or is a vararg), and `ptrMayAliasTracked` that
its pointer may alias the tracked store; a resolved read call and a store
carry their size and destination oracle answers. -/
inductive DSEInstr where
  | lifetimeEnd
  | memIntrinsic (isMTI : Bool) (mtiNotKnownDead : Bool) (srcMayAliasTracked : Bool)
      (knownSize : Option Nat) (destAlias : AliasResult) (destRange : Option (Nat × Nat))
  | readCall (readSize : Nat) (destAlias : AliasResult) (destRange : Option (Nat × Nat))
  | loadInstr (unresolved : Bool) (ptrMayAliasTracked : Bool)
  | storeInstr (writeSize : Nat) (destAlias : AliasResult) (destRange : Option (Nat × Nat))
  | otherInstr
deriving DecidableEq, Repr

/-- The marking loop of `IntegrationAttempt::DSEHandleWrite`
(DSE.cpp:316-337): bytes in `[fd, fnd)` are marked dead; the loop stops at
the first unmarked byte outside that range, and reports whether it ran to
the end with every byte dead (`Finished`). -/
def dseMarkLoop : List Bool → Nat → Nat → Nat → Nat → List Bool × Bool
  | bs, _, _, _, 0 => (bs, true)
  | bs, fd, fnd, i, n + 1 =>
    if fd ≤ i && i < fnd then dseMarkLoop (bs.set i true) fd fnd (i + 1) n
    else if bs.getD i false then dseMarkLoop bs fd fnd (i + 1) n
    else (bs, false)

/-- `IntegrationAttempt::DSEHandleWrite` (DSE.cpp:279-341): a null bitmap
(unknown tracked size) records nothing; otherwise the byte range defined by
the candidate write is computed from the alias verdict (`MustAlias` covers
`min writeSize trackedSize` bytes from 0; `MayAlias` uses the external
`GetDefinedRange`, defaulting to the empty range when it fails), the range
is marked in the path bitmap, and the result tells whether the tracked
bytes are now fully covered. -/
def DSEHandleWrite (writeSize : Nat) (r : AliasResult) (range : Option (Nat × Nat))
    (trackedSize : Nat) (deadBytes : Option (List Bool)) : Bool × Option (List Bool) :=
  match deadBytes with
  | none => (false, none)
  | some bs =>
    let fr : Nat × Nat :=
      match r with
      | .mayAlias => range.getD (0, 0)
      | .mustAlias => (0, min writeSize trackedSize)
      | .noAlias => (0, 0)
    if fr.1 ≠ fr.2 then
      let res := dseMarkLoop bs fr.1 fr.2 0 trackedSize
      (res.2, some res.1)
    else (false, some bs)

/-- `IntegrationAttempt::noteBytesWrittenBy` (DSE.cpp:123-216): the step
rule of the dead-store walk.  A lifetime end stops the path successfully;
a live may-aliasing memory-transfer source, or a load whose value is
unresolved (or unavailable from the store's context) and whose pointer may
alias the tracked target, aborts the whole walk; candidate writes mark
their range and stop the path when coverage becomes total. -/
def noteBytesWrittenBy (instr : DSEInstr) (trackedSize : Nat)
    (deadBytes : Option (List Bool)) : WalkInstructionResult × Option (List Bool) :=
  match instr with
  | .lifetimeEnd => (.stopThisPath, deadBytes)
  | .memIntrinsic isMTI notDead srcAl ksz dAl dRange =>
    if isMTI && notDead && srcAl then (.stopWholeWalk, deadBytes)
    else
      match ksz with
      | some sz =>
        let res := DSEHandleWrite sz dAl dRange trackedSize deadBytes
        (if res.1 then .stopThisPath else .wContinue, res.2)
      | none => (.wContinue, deadBytes)
  | .readCall rsz dAl dRange =>
    let res := DSEHandleWrite rsz dAl dRange trackedSize deadBytes
    (if res.1 then .stopThisPath else .wContinue, res.2)
  | .loadInstr unres mayAl =>
    if unres && mayAl then (.stopWholeWalk, deadBytes) else (.wContinue, deadBytes)
  | .storeInstr wsz dAl dRange =>
    let res := DSEHandleWrite wsz dAl dRange trackedSize deadBytes
    (if res.1 then .stopThisPath else .wContinue, res.2)
  | .otherInstr => (.wContinue, deadBytes)

/-- Modelled from the spec: the control-flow structure downstream of the
tracked write, as unfolded into paths by the `ForwardIAWalker` engine
(which lives outside the analysed sources): straight-line instructions,
forks where paths split (the path bitmap is copied), and `exit` for
reaching a function/program end. -/
inductive WalkNode where
  | exit
  | seq (instr : DSEInstr) (next : WalkNode)
  | fork (left right : WalkNode)
deriving DecidableEq, Repr

/-- Modelled from the spec: the forward walk's verdict, true when the
tracked write is used.  A whole-walk stop anywhere makes the verdict true;
a successfully stopped path contributes nothing; reaching an exit without
lifetime end or full coverage is conservative "used". -/
def walkWriteUsed (trackedSize : Nat) : WalkNode → Option (List Bool) → Bool
  | .exit, _ => true
  | .fork a b, bytes =>
    walkWriteUsed trackedSize a bytes || walkWriteUsed trackedSize b bytes
  | .seq instr next, bytes =>
    match (noteBytesWrittenBy instr trackedSize bytes).1 with
    | .stopWholeWalk => true
    | .stopThisPath => false
    | .wContinue => walkWriteUsed trackedSize next (noteBytesWrittenBy instr trackedSize bytes).2

/-- The global-stop trigger of the claim: a load that is unresolved and
may alias the tracked target. -/
def isUnresolvedAliasingLoad : DSEInstr → Bool
  | .loadInstr true true => true
  | _ => false

/-- Whether the walk, following its own step rule, actually reaches (on
some path, with the path bitmap built up along the way) a load that is
unresolved and may alias the tracked target — the global-stop trigger of
C3. -/
def reachesUnresolvedLoadStop (trackedSize : Nat) : WalkNode → Option (List Bool) → Bool
  | .exit, _ => false
  | .fork a b, bytes =>
    reachesUnresolvedLoadStop trackedSize a bytes ||
      reachesUnresolvedLoadStop trackedSize b bytes
  | .seq instr next, bytes =>
    match (noteBytesWrittenBy instr trackedSize bytes).1 with
    | .stopWholeWalk => isUnresolvedAliasingLoad instr
    | .stopThisPath => false
    | .wContinue =>
      reachesUnresolvedLoadStop trackedSize next (noteBytesWrittenBy instr trackedSize bytes).2

/-- `IntegrationAttempt::tryKillWriterTo` (DSE.cpp:240-277): build the
initial path bitmap (all-false over the tracked size, or null when the
size is unknown), run the walk over the code after the writer, and report
whether the write could be killed (true exactly when the walk did not find
it used). -/
def tryKillWriterTo (size : Option Nat) (walk : WalkNode) : Bool :=
  let initialCtx : Option (List Bool) := size.map (fun s => List.replicate s false)
  !(walkWriteUsed (size.getD 0) walk initialCtx)

/-- Scenario E as a walk structure: one branch fully overwrites the
2-byte tracked store (must-alias store of 2 bytes), the other meets an
unresolved may-aliasing load. -/
def walkScenarioE : WalkNode :=
  .fork (.seq (.storeInstr 2 .mustAlias none) .exit)
        (.seq (.loadInstr true true) .exit)

theorem PointerBase.merge_overdef_eq (a b : PointerBase)
    (h : (a.merge b).Overdef = true) : a.merge b = PointerBase.getOverdef := by
  unfold PointerBase.merge at h ⊢
  split at h
  · simp [*]
  · split at h
    · simp_all
    · split at h
      · simp_all
      · split at h
        · simp [*]
        · split at h
          · next hcond =>
            simp only [List.length_append] at hcond
            simp [*]
          · simp at h

theorem PointerBase.getOverdef_merge (b : PointerBase) :
    PointerBase.getOverdef.merge b = PointerBase.getOverdef := by
  simp [PointerBase.merge, PointerBase.getOverdef]

theorem foldl_merge_getOverdef (l : List PointerBase) :
    l.foldl PointerBase.merge PointerBase.getOverdef = PointerBase.getOverdef := by
  induction l with
  | nil => rfl
  | cons x xs ih => simp [List.foldl_cons, PointerBase.getOverdef_merge, ih]

theorem tryEvaluateMergeLoop_optimistic (vals : List (Option PointerBase)) :
    ∀ (acc : PointerBase) (anyInfo : Bool),
      (acc.Overdef = true → acc = PointerBase.getOverdef) →
      (tryEvaluateMergeLoop false vals acc anyInfo).1 =
        (vals.filterMap id).foldl PointerBase.merge acc := by
  induction vals with
  | nil => intro acc anyInfo _; rfl
  | cons v rest ih =>
    intro acc anyInfo hacc
    by_cases hov : acc.Overdef = true
    · have hacc2 := hacc hov
      subst hacc2
      simp only [tryEvaluateMergeLoop]
      have hO : PointerBase.getOverdef.Overdef = true := rfl
      rw [if_pos hO]
      cases v with
      | none =>
        simp [List.filterMap_cons, foldl_merge_getOverdef]
      | some vpb =>
        simp [List.filterMap_cons, List.foldl_cons,
          PointerBase.getOverdef_merge, foldl_merge_getOverdef]
    · simp only [tryEvaluateMergeLoop]
      rw [if_neg hov]
      cases v with
      | none =>
        simp only [List.filterMap_cons]
        exact ih acc anyInfo hacc
      | some vpb =>
        simp only [List.filterMap_cons, List.foldl_cons]
        exact ih (acc.merge vpb) true (PointerBase.merge_overdef_eq acc vpb)

theorem tryEvaluateMergeLoop_finalise_unknown (vals : List (Option PointerBase))
    (h : none ∈ vals) :
    ∀ (acc : PointerBase) (anyInfo : Bool),
      (tryEvaluateMergeLoop true vals acc anyInfo).1.Overdef = true := by
  induction vals with
  | nil => cases h
  | cons v rest ih =>
    intro acc anyInfo
    by_cases hov : acc.Overdef = true
    · simp only [tryEvaluateMergeLoop]
      rw [if_pos hov]
      exact hov
    · simp only [tryEvaluateMergeLoop]
      rw [if_neg hov]
      cases v with
      | none => simp [PointerBase.getOverdef]
      | some vpb =>
        have h2 : (none : Option PointerBase) ∈ rest := by simpa using h
        exact ih h2 (acc.merge vpb) true

/-- C1.  In `IntegrationAttempt::tryEvaluateMerge`, during the optimistic
phase (`finalise = false`) every operand whose lattice value is still
Unknown (`getPointerBase` failed, modelled `none`) is skipped, and the merge
result is exactly the join of the remaining (defined) operand values; during
the finalising phase (`finalise = true`) the presence of any Unknown operand
forces the merge result to Overdef. -/
theorem tryEvaluateMerge_phases (vals : List (Option PointerBase)) :
    (tryEvaluateMerge false vals).1 =
      (vals.filterMap id).foldl PointerBase.merge {} ∧
    (none ∈ vals → (tryEvaluateMerge true vals).1.Overdef = true) := by
  constructor
  · exact tryEvaluateMergeLoop_optimistic vals {} false (by intro h; cases h)
  · intro h
    exact tryEvaluateMergeLoop_finalise_unknown vals h {} false

/-- Witness for C1: a two-operand merge `phi(5, Unknown)` in the finalising
phase becomes Overdef. -/
theorem tryEvaluateMerge_phases_witness :
    (none ∈ [some (⟨.Scalar, [⟨.constInt 32 5, 0⟩], false⟩ : PointerBase), none]) ∧
    (tryEvaluateMerge true
      [some (⟨.Scalar, [⟨.constInt 32 5, 0⟩], false⟩ : PointerBase), none]).1.Overdef = true :=
  ⟨by decide,
   (tryEvaluateMerge_phases
     [some (⟨.Scalar, [⟨.constInt 32 5, 0⟩], false⟩ : PointerBase), none]).2 (by decide)⟩

theorem identified_not_null (v : ShadowVal) (h : isGlobalIdentifiedObject v = true) :
    v.isNullValue = false := by
  cases v <;> simp_all [isGlobalIdentifiedObject, ShadowVal.isNullValue]

theorem identified_ptrTy (v : ShadowVal) (h : isGlobalIdentifiedObject v = true) :
    v.isPtrTy = true := by
  cases v <;> simp_all [isGlobalIdentifiedObject, ShadowVal.isPtrTy]

/-- C2.  For a phi node at a loop header evaluated within a peel iteration,
`tryEvaluateHeaderPHI` resolves exactly one predecessor: at iteration 0 the
value is the preheader's incoming operand (resolved in iteration 0's
context), and at any iteration `k > 0` it is the latch block's incoming
operand resolved in iteration `k - 1`'s context. -/
theorem tryEvaluateHeaderPHI_single_pred (env : CtxValue → Option PointerBase)
    (phi : HeaderPhi) (k : Nat) (h : phi.isHeaderPHI = true) :
    (k = 0 → tryEvaluateHeaderPHI env phi k =
      some (env ((phi.operands.getD phi.preheaderIdx defaultPhiOperand).valueInIter 0))) ∧
    (0 < k → tryEvaluateHeaderPHI env phi k =
      some (env ((phi.operands.getD phi.latchIdx defaultPhiOperand).valueInIter (k - 1)))) := by
  constructor
  · rintro rfl
    simp [tryEvaluateHeaderPHI, h, getLoopHeaderForwardedOperand]
  · intro hk
    have hk0 : ¬ k = 0 := by omega
    simp only [tryEvaluateHeaderPHI, h, if_true]
    have : getLoopHeaderForwardedOperand phi k =
        (phi.operands.getD phi.latchIdx defaultPhiOperand).valueInIter (k - 1) := by
      unfold getLoopHeaderForwardedOperand
      rw [if_neg hk0]
      cases phi.operands.getD phi.latchIdx defaultPhiOperand with
      | constOp c => rfl
      | instOp b i => rfl
    rw [this]

/-- Witness for C2: at iteration 1, the example header PHI takes the latch
operand from iteration 0. -/
theorem tryEvaluateHeaderPHI_single_pred_witness :
    headerPhiEx.isHeaderPHI = true ∧ 0 < 1 ∧
    tryEvaluateHeaderPHI phiEnvEx headerPhiEx 1 =
      some (phiEnvEx ((headerPhiEx.operands.getD headerPhiEx.latchIdx defaultPhiOperand).valueInIter 0)) :=
  ⟨rfl, by decide,
   (tryEvaluateHeaderPHI_single_pred phiEnvEx headerPhiEx 1 rfl).2 (by decide)⟩

theorem take_length_sub_one_eq_dropLast {α : Type} (l : List α) :
    l.take (l.length - 1) = l.dropLast := by
  induction l with
  | nil => rfl
  | cons x xs ih =>
    cases xs with
    | nil => rfl
    | cons y ys =>
      have hlen : (x :: y :: ys).length - 1 = (y :: ys).length - 1 + 1 := by
        simp [List.length_cons]
      rw [hlen, List.take_succ_cons, ih]
      rfl

/-- C7.  `isOnlyExitingIteration` returns true exactly for an iteration
with final status whose peel attempt either has no optimistic edge or has
all its non-final (all-but-last) iterations proven not to exit; it returns
false for any non-final iteration. -/
theorem isOnlyExitingIteration_spec (it : PeelIterationInfo) (pa : PeelAttemptInfo) :
    isOnlyExitingIteration it pa = true ↔
      (it.iterStatus = .IterationStatusFinal ∧
        (pa.optimisticEdgeFirst = noOptimisticEdge ∨
          ∀ j ∈ pa.iterations.dropLast, j.allExitEdgesDead = true)) := by
  unfold isOnlyExitingIteration allNonFinalIterationsDoNotExit
  rw [take_length_sub_one_eq_dropLast]
  by_cases hf : it.iterStatus = .IterationStatusFinal
  · by_cases ho : pa.optimisticEdgeFirst = noOptimisticEdge
    · simp [hf, ho]
    · simp [hf, ho, List.all_eq_true]
  · simp [hf]

/-- C5 counterexample.  A Pointer-Base operand of a width-changing cast
(i64 to i16) is passed through unchanged rather than becoming Overdef, so
the claim that a Pointer-Base value "becomes Overdef when the cast changes
width" fails at this input. -/
theorem tryEvaluateCast_width_change_counterexample :
    tryEvaluateCast (.intTy 64) (.intTy 16) (.PB, ⟨.globalObj 0, 0⟩) =
      .passThrough .PB ⟨.globalObj 0, 0⟩ ∧
    tryEvaluateCast (.intTy 64) (.intTy 16) (.PB, ⟨.globalObj 0, 0⟩) ≠
      .overdef := by
  decide

/-- C5 (amended).  In the cast evaluator, a Resource-Handle operand passes
through unchanged exactly when both the source and destination types are
i32, i64 or pointer (width changes within that set included) and becomes
Overdef otherwise; Pointer-Base and VarArg-Slot operands pass through every
cast unchanged; Scalar operands fall through to generic constant
folding. -/
theorem tryEvaluateCast_amended (src dest : LType) (v : ImprovedVal) :
    tryEvaluateCast src dest (.FD, v) =
      (if fdCastTypeOK src && fdCastTypeOK dest then
        .passThrough .FD v
       else .overdef) ∧
    tryEvaluateCast src dest (.PB, v) = .passThrough .PB v ∧
    tryEvaluateCast src dest (.VarArg, v) = .passThrough .VarArg v ∧
    tryEvaluateCast src dest (.Scalar, v) = .constFoldFallthrough := by
  refine ⟨?_, ?_, ?_, ?_⟩
  · by_cases hok : (fdCastTypeOK src && fdCastTypeOK dest) = true
    · simp [tryEvaluateCast, hok]
    · simp only [Bool.not_eq_true] at hok
      simp [tryEvaluateCast, hok]
  · simp [tryEvaluateCast]
  · simp [tryEvaluateCast]
  · simp [tryEvaluateCast]

theorem getVal_constInt (w c : Nat) :
    (ShadowVal.constInt w c).getVal = some (.constInt w c) := rfl

theorem isInstVal_constInt (w c : Nat) :
    (ShadowVal.constInt w c).isInstVal = false := rfl

theorem asConstInt_constInt (w c : Nat) :
    (ShadowVal.constInt w c).asConstInt = some (w, c) := rfl

theorem isNullValue_constInt (w c : Nat) :
    (ShadowVal.constInt w c).isNullValue = decide (c = 0) := rfl

/-- C6.  `tryFoldNonConstCmp` folds an integer inequality between a
non-constant and the extremal constant matching the predicate to a
tautological boolean, regardless of the non-constant side: unsigned `>`
against all-ones is false, unsigned `>=` against zero is true, unsigned `<`
against zero is false, unsigned `<=` against all-ones is true, and the
signed predicates fold against the signed maximum/minimum analogously; the
final conjunct shows the constant-on-the-left form `0 u> v` folding to
false through the reversed predicate `v u< 0`. -/
theorem tryFoldNonConstCmp_extremal (v : ShadowVal) (w : Nat)
    (hv : v.getVal = none) :
    tryFoldNonConstCmp .ugt v (.constInt w (2 ^ w - 1)) = some false ∧
    tryFoldNonConstCmp .uge v (.constInt w 0) = some true ∧
    tryFoldNonConstCmp .ult v (.constInt w 0) = some false ∧
    tryFoldNonConstCmp .ule v (.constInt w (2 ^ w - 1)) = some true ∧
    tryFoldNonConstCmp .sgt v (.constInt w (2 ^ (w - 1) - 1)) = some false ∧
    tryFoldNonConstCmp .sge v (.constInt w (2 ^ (w - 1))) = some true ∧
    tryFoldNonConstCmp .slt v (.constInt w (2 ^ (w - 1))) = some false ∧
    tryFoldNonConstCmp .sle v (.constInt w (2 ^ (w - 1) - 1)) = some true ∧
    tryFoldNonConstCmp .ugt (.constInt w 0) v = some false := by
  refine ⟨?_, ?_, ?_, ?_, ?_, ?_, ?_, ?_, ?_⟩ <;>
    simp [tryFoldNonConstCmp, hv, getVal_constInt, asConstInt_constInt,
      isNullValue_constInt, getReversePred, intIsAllOnes, intIsMaxSigned,
      intIsMinSigned]

/-- Witness for C6: `v u< 0` with an unresolved `v` folds to false. -/
theorem tryFoldNonConstCmp_extremal_witness :
    (ShadowVal.inst 0 false false).getVal = none ∧
    tryFoldNonConstCmp .ult (.inst 0 false false) (.constInt 8 0) = some false :=
  ⟨rfl, (tryFoldNonConstCmp_extremal (.inst 0 false false) 8 rfl).2.2.1⟩

/-- C4.  For an integer comparison of two Pointer-Base values whose owning
objects are distinct and both globally identified, `tryFoldPointerCmp`
folds `==` to Scalar false and `!=` to Scalar true regardless of either
offset (resolved or indeterminate), and declines every other predicate. -/
theorem tryFoldPointerCmp_distinct_identified (pred : CmpPred)
    (v0 v1 : ShadowVal) (off0 off1 : Int)
    (h0 : isGlobalIdentifiedObject v0 = true)
    (h1 : isGlobalIdentifiedObject v1 = true) (hne : v0 ≠ v1) :
    tryFoldPointerCmp pred (.PB, ⟨v0, off0⟩) (.PB, ⟨v1, off1⟩) =
      (if pred = .eq then some (.Scalar, ⟨cFalse, 0⟩)
       else if pred = .ne then some (.Scalar, ⟨cTrue, 0⟩)
       else none) := by
  have hn0 := identified_not_null v0 h0
  have hn1 := identified_not_null v1 h1
  have hp0 := identified_ptrTy v0 h0
  have hp1 := identified_ptrTy v1 h1
  cases pred <;>
    simp [tryFoldPointerCmp, hn0, hn1, hp0, hp1, h0, h1, hne, beq_iff_eq]

/-- Witness for C4: pointers into two distinct identified globals compare
equal-to-false even with one offset indeterminate. -/
theorem tryFoldPointerCmp_distinct_identified_witness :
    isGlobalIdentifiedObject (.globalObj 0) = true ∧
    (ShadowVal.globalObj 0 ≠ ShadowVal.globalObj 1) ∧
    tryFoldPointerCmp .eq (.PB, ⟨.globalObj 0, LLONG_MAX⟩) (.PB, ⟨.globalObj 1, 5⟩) =
      some (.Scalar, ⟨cFalse, 0⟩) :=
  ⟨rfl, by decide, by
    have := tryFoldPointerCmp_distinct_identified .eq (.globalObj 0) (.globalObj 1)
      LLONG_MAX 5 rfl rfl (by decide)
    simpa using this⟩

/-- C9.  A comparison of a Resource-Handle (FD) instruction against a
concrete integer constant wider than 64 bits, or using a predicate the
handle evaluator does not support (the unsigned inequalities), is handled
terminally as Overdef — `tryFoldOpenCmp` neither folds it nor declines
(which would let generic constant folding run) — in both operand orders. -/
theorem tryFoldOpenCmp_conservative (pred : CmpPred) (fdv : ShadowVal)
    (off : Int) (w v : Nat) (cty : ValSetType) (hfd : fdv.isInstVal = true) :
    (64 < w →
      tryFoldOpenCmp pred (.FD, ⟨fdv, off⟩) (cty, ⟨.constInt w v, 0⟩) = .overdefResult ∧
      tryFoldOpenCmp pred (cty, ⟨.constInt w v, 0⟩) (.FD, ⟨fdv, off⟩) = .overdefResult) ∧
    (unsupportedOpenPred pred = true →
      tryFoldOpenCmp pred (.FD, ⟨fdv, off⟩) (cty, ⟨.constInt w v, 0⟩) = .overdefResult ∧
      tryFoldOpenCmp pred (cty, ⟨.constInt w v, 0⟩) (.FD, ⟨fdv, off⟩) = .overdefResult) := by
  constructor
  · intro hw
    constructor <;>
      simp [tryFoldOpenCmp, hfd, asConstInt_constInt, isInstVal_constInt,
        getOpenCmpResult, hw]
  · intro hp
    constructor <;>
      cases pred <;> simp_all [tryFoldOpenCmp, hfd, asConstInt_constInt,
        isInstVal_constInt, getOpenCmpResult, effectiveOpenPred, flipSignedPred,
        unsupportedOpenPred]

/-- Witness for C9: a 65-bit comparison constant forces Overdef. -/
theorem tryFoldOpenCmp_conservative_witness :
    (ShadowVal.inst 0 false false).isInstVal = true ∧ 64 < 65 ∧
    tryFoldOpenCmp .eq (.FD, ⟨.inst 0 false false, 0⟩)
      (.Scalar, ⟨.constInt 65 0, 0⟩) = .overdefResult :=
  ⟨rfl, by decide,
   ((tryFoldOpenCmp_conservative .eq (.inst 0 false false) 0 65 0 .Scalar rfl).1
     (by decide)).1⟩

/-- C10.  With the handle normalised to the left-hand side (predicate
`effectiveOpenPred pred flip`) and a constant of width at most 64,
`getOpenCmpResult` folds exactly as forced by the invariant that a file
descriptor is a nonnegative signed 64-bit integer and nothing stronger:
it yields false precisely for `==` with a negative constant, `s<` with a
nonpositive constant, or `s<=` with a negative constant; and it yields
true precisely for `!=` or `s>` with a negative constant, or `s>=` with a
nonpositive constant.  All other cases (nonnegative constants under these
predicates, and every unsigned predicate) produce no fold. -/
theorem getOpenCmpResult_exact (pred : CmpPred) (flip : Bool) (w v : Nat)
    (hw : w ≤ 64) :
    (getOpenCmpResult pred (w, v) flip = some false ↔
      (effectiveOpenPred pred flip = .eq ∧ toSigned w v < 0) ∨
      (effectiveOpenPred pred flip = .slt ∧ toSigned w v ≤ 0) ∨
      (effectiveOpenPred pred flip = .sle ∧ toSigned w v < 0)) ∧
    (getOpenCmpResult pred (w, v) flip = some true ↔
      (effectiveOpenPred pred flip = .ne ∧ toSigned w v < 0) ∨
      (effectiveOpenPred pred flip = .sgt ∧ toSigned w v < 0) ∨
      (effectiveOpenPred pred flip = .sge ∧ toSigned w v ≤ 0)) := by
  have hnot : ¬ (64 < w) := by omega
  cases flip <;> cases pred <;>
    constructor <;>
      simp [getOpenCmpResult, effectiveOpenPred, flipSignedPred, hnot]

/-- Witness for C10: comparing an FD for equality with the 32-bit constant
whose signed value is -1 folds to false. -/
theorem getOpenCmpResult_exact_witness :
    (32 ≤ 64) ∧ getOpenCmpResult .eq (32, 4294967295) false = some false :=
  ⟨by decide,
   ((getOpenCmpResult_exact .eq false 32 4294967295 (by decide)).1).mpr
     (Or.inl ⟨rfl, by decide⟩)⟩

mutual
theorem ctxAllDead_mark : ∀ c : ICtx, ctxAllDead (markContextDead c) = true
  | .mk d i ics pcs => by
    simp [markContextDead, ctxAllDead, ctxListAllDead_mark ics, peelsAllDead_mark pcs]
theorem ctxListAllDead_mark : ∀ l : ICtxList, ctxListAllDead (markContextDeadList l) = true
  | .nil => rfl
  | .cons c cs => by
    simp [markContextDeadList, ctxListAllDead, ctxAllDead_mark c, ctxListAllDead_mark cs]
theorem peelsAllDead_mark : ∀ p : PeelAttemptList, peelsAllDead (markContextDeadPeels p) = true
  | .nil => rfl
  | .cons its ps => by
    simp [markContextDeadPeels, peelsAllDead, ctxListAllDead_mark its, peelsAllDead_mark ps]
end

mutual
theorem ctxClearDead_mark : ∀ c : ICtx, ctxClearDead (markContextDead c) = ctxClearDead c
  | .mk d i ics pcs => by
    simp [markContextDead, ctxClearDead, ctxListClearDead_mark ics, peelsClearDead_mark pcs]
theorem ctxListClearDead_mark :
    ∀ l : ICtxList, ctxListClearDead (markContextDeadList l) = ctxListClearDead l
  | .nil => rfl
  | .cons c cs => by
    simp [markContextDeadList, ctxListClearDead, ctxClearDead_mark c, ctxListClearDead_mark cs]
theorem peelsClearDead_mark :
    ∀ p : PeelAttemptList, peelsClearDead (markContextDeadPeels p) = peelsClearDead p
  | .nil => rfl
  | .cons its ps => by
    simp [markContextDeadPeels, peelsClearDead, ctxListClearDead_mark its, peelsClearDead_mark ps]
end

/-- C8.  After `markContextDead` runs on a context, every context of its
subtree — itself, every child inline attempt, every iteration of every
child peel attempt, recursively — has its dead flag set, and nothing else
changes: clearing the dead flags of the marked subtree gives back exactly
the original subtree with its flags cleared (same ids, same shape), and
the operation touches no context outside its argument. -/
theorem markContextDead_spec (c : ICtx) :
    ctxAllDead (markContextDead c) = true ∧
    ctxClearDead (markContextDead c) = ctxClearDead c :=
  ⟨ctxAllDead_mark c, ctxClearDead_mark c⟩

theorem reaches_imp_used (tsz : Nat) :
    ∀ (t : WalkNode) (bytes : Option (List Bool)),
      reachesUnresolvedLoadStop tsz t bytes = true →
      walkWriteUsed tsz t bytes = true := by
  intro t
  induction t with
  | exit =>
    intro bytes h
    simp [reachesUnresolvedLoadStop] at h
  | seq instr next ih =>
    intro bytes h
    unfold reachesUnresolvedLoadStop at h
    unfold walkWriteUsed
    cases hres : (noteBytesWrittenBy instr tsz bytes).1 with
    | stopWholeWalk => simp [hres]
    | stopThisPath => rw [hres] at h; simp at h
    | wContinue =>
      rw [hres] at h
      simp only at h
      simp only
      exact ih _ h
  | fork a b iha ihb =>
    intro bytes h
    unfold reachesUnresolvedLoadStop at h
    unfold walkWriteUsed
    simp only [Bool.or_eq_true] at h ⊢
    rcases h with h1 | h1
    · exact Or.inl (iha _ h1)
    · exact Or.inr (ihb _ h1)

/-- C3.  During the dead-store forward walk for a tracked write of known
size, if the walk reaches — on any path — a load whose value is unresolved
(or unavailable from the store's context) and whose pointer may alias the
tracked target, then the whole walk's verdict is that the write is used
and `tryKillWriterTo` fails to kill it, regardless of what the other paths
do (in particular even if another path fully overwrites the tracked
bytes). -/
theorem dse_unresolved_load_poisons_walk (size : Nat) (walk : WalkNode)
    (h : reachesUnresolvedLoadStop size walk (some (List.replicate size false)) = true) :
    walkWriteUsed size walk (some (List.replicate size false)) = true ∧
    tryKillWriterTo (some size) walk = false := by
  have hu := reaches_imp_used size walk (some (List.replicate size false)) h
  refine ⟨hu, ?_⟩
  simp [tryKillWriterTo, hu]

/-- Witness for C3: in Scenario E one branch fully overwrites the 2-byte
store and the other meets an unresolved may-aliasing load; the write is
judged used. -/
theorem dse_unresolved_load_poisons_walk_witness :
    reachesUnresolvedLoadStop 2 walkScenarioE (some (List.replicate 2 false)) = true ∧
    tryKillWriterTo (some 2) walkScenarioE = false :=
  ⟨by decide,
   (dse_unresolved_load_poisons_walk 2 walkScenarioE (by decide)).2⟩
